import Mathlib

/-!
Shallow embedding of the content-collection and feed-generation pipeline of a
static blog: the post loader (`lib/get-single-post.js`), the post repository
(`lib/get-all-posts.js`), and the page assembler's sort and RSS synthesis
(`pages/index.js`).  Filesystem reads are modelled by an explicit store `FS`;
the external front-matter parsing library (gray-matter) is modelled by letting
the store map each filename to the parse outcome (a parsed file or a parse
error), since that library is not part of this repository; the external `feed`
library is modelled structurally (feed container, items, serialization
timestamp).  All repository logic — slug normalization, path resolution, field
projection, enumeration, the date comparator, the field-to-item mapping — is
translated directly from the source.
-/

namespace Blog

/-- Front-matter value: a scalar text value or a sequence of text values
(e.g. the `keywords` list). -/
inductive Value where
  | vstr : String → Value
  | vlist : List String → Value
deriving DecidableEq

/-- A dynamic record (JavaScript object): an association list from key to
value, keys unique, in insertion order. -/
abbrev Obj := List (String × Value)

/-- Keys of a record. -/
def objKeys (o : Obj) : List String := o.map Prod.fst

/-- Assignment `o[k] = v` on a JavaScript object: overwrite the value if the
key is present (keeping its position), otherwise append the key. -/
def objInsert (o : Obj) (k : String) (v : Value) : Obj :=
  match o with
  | [] => [(k, v)]
  | (k0, v0) :: t => if k0 = k then (k0, v) :: t else (k0, v0) :: objInsert t k v

/-- Result of parsing a post file with the front-matter library: the header
data and the body text (gray-matter `{ data, content }`). -/
structure PostFile where
  data : List (String × Value)
  content : String
deriving DecidableEq

/-- A front-matter parse error (malformed header). -/
structure ParseErr where
  msg : String
deriving DecidableEq

/-- Errors a post load can fail with: the backing file is missing
(`readFileSync` ENOENT), or the header fails to parse. -/
inductive LoadErr where
  | fileNotFound : String → LoadErr
  | parseError : ParseErr → LoadErr
deriving DecidableEq

/-- The posts directory: its enumeration (`readdirSync`) and, for each
filename, the outcome of reading and front-matter-parsing that file —
`none` when no such file exists. -/
structure FS where
  entries : List String
  read : String → Option (Except ParseErr PostFile)

/-- True when the string ends in ".md" (the regex test of `\.md$`). -/
def endsWithMd (s : String) : Bool :=
  match s.toList.reverse with
  | 'd' :: 'm' :: '.' :: _ => true
  | _ => false

/-- Translation of `slug.replace(/\.md$/, "")`: strip one trailing ".md". -/
def realSlug (s : String) : String :=
  if endsWithMd s then ((s.toList.reverse.drop 3).reverse).asString else s

/-- Default field list `basicMetaTags` from `lib/get-single-post.js`. -/
def basicMetaTags : List String :=
  ["title", "excerpt", "description", "keywords", "content", "coverImage",
   "date", "author", "slug", "twitterCard", "twitterSite", "twitterTitle",
   "twitterDescription", "twitterImage", "ogTitle", "ogDescription",
   "ogImage", "ogURL", "ogSiteName"]

/-- One step of the `fields.forEach` loop body in `getPostBySlug`: copy the
header value when present, then overwrite with the body text when the field
is "content". -/
def projectStep (file : PostFile) (items : Obj) (field : String) : Obj :=
  let items1 :=
    match List.lookup field file.data with
    | some v => objInsert items field v
    | none => items
  if field = "content" then objInsert items1 field (Value.vstr file.content)
  else items1

/-- The field-projection loop of `getPostBySlug`: starting from the empty
object, run `projectStep` over the requested fields. -/
def projectFields (fields : List String) (file : PostFile) : Obj :=
  fields.foldl (projectStep file) []

/-- Translation of `getPostBySlug` from `lib/get-single-post.js`: normalize
the slug, resolve the path, read and parse the file, project the fields.
A missing file yields a file-not-found error; a malformed header propagates
the parse error. -/
def getPostBySlug (fs : FS) (slug : String) (fields : List String) :
    Except LoadErr Obj :=
  match fs.read (realSlug slug ++ ".md") with
  | none => .error (.fileNotFound (realSlug slug ++ ".md"))
  | some (.error e) => .error (.parseError e)
  | some (.ok file) => .ok (projectFields fields file)

/-- Translation of `getPostSlugs`: the raw directory enumeration. -/
def getPostSlugs (fs : FS) : List String := fs.entries

/-- Mapping a fallible loader over a list, with a thrown error aborting the
whole traversal (the semantics of an exception inside `Array.prototype.map`). -/
def mapLoad (f : α → Except ε β) : List α → Except ε (List β)
  | [] => .ok []
  | a :: l =>
      match f a with
      | .error e => .error e
      | .ok b =>
          match mapLoad f l with
          | .error e => .error e
          | .ok bs => .ok (b :: bs)

/-- Translation of `getAllPosts` from `lib/get-all-posts.js`: enumerate the
directory and load every entry with the given field list, in enumeration
order, with no sorting, filtering, or error recovery. -/
def getAllPosts (fs : FS) (fields : List String := basicMetaTags) :
    Except LoadErr (List Obj) :=
  mapLoad (fun slug => getPostBySlug fs slug fields) (getPostSlugs fs)

/-- Digits of a decimal numeral to a natural number. -/
def digitsToNat (l : List Char) : Nat :=
  l.foldl (fun acc c => acc * 10 + (c.toNat - '0'.toNat)) 0

/-- Split a character list on the dash character. -/
def splitDash (l : List Char) : List (List Char) :=
  l.foldr
    (fun c acc =>
      if c = '-' then [] :: acc
      else
        match acc with
        | g :: gs => (c :: g) :: gs
        | [] => [[c]])
    [[]]

/-- Calendar-date value of a "YYYY-MM-DD" string (the order-relevant content
of `new Date(s)`): encoded as y * 10000 + m * 100 + d, so that the numeric
order is the calendar order.  Strings not of that shape map to 0. -/
def parseDate (s : String) : Nat :=
  match splitDash s.toList with
  | [y, m, d] => digitsToNat y * 10000 + digitsToNat m * 100 + digitsToNat d
  | _ => 0

/-- Date string of a post record (the `a.date` access in the comparator). -/
def recDate (o : Obj) : String :=
  match List.lookup "date" o with
  | some (.vstr s) => s
  | _ => ""

/-- The order the page assembler's comparator
`(a, b) => (new Date(a.date) < new Date(b.date) ? 1 : -1)` establishes:
`a` is placed before `b` exactly when the comparator does not return 1,
i.e. when the date of `a` is not earlier than the date of `b`. -/
def postGe (a b : Obj) : Prop :=
  parseDate (recDate b) ≤ parseDate (recDate a)

instance : DecidableRel postGe := fun a b =>
  inferInstanceAs (Decidable (parseDate (recDate b) ≤ parseDate (recDate a)))

instance : IsTotal Obj postGe :=
  ⟨fun a b => (Nat.le_total (parseDate (recDate b)) (parseDate (recDate a)))⟩

instance : IsTrans Obj postGe :=
  ⟨fun _ _ _ hab hbc => Nat.le_trans hbc hab⟩

/-- The page assembler's sort `articles.sort(comparator)`: a stable sort with
respect to the order the comparator establishes. -/
def sortPostsByDateDesc (l : List Obj) : List Obj :=
  List.insertionSort postGe l

/-- Site base URL constant of `generateRSSFeed`. -/
def baseUrl : String := "https://bgolebiowski.com"

/-- Feed author identity (site metadata constant). -/
structure FeedAuthor where
  name : String
  email : String
  link : String
deriving DecidableEq

/-- The site author constant of `generateRSSFeed`. -/
def siteAuthor : FeedAuthor :=
  { name := "Bartosz Golebiowski"
    email := "contact@bgolebiowski.com"
    link := "https://twitter.com/bgolebiowski24" }

/-- A feed item as passed to `feed.addItem`.  Pass-through fields keep the
optionality of the destructured record fields; the date is the parsed
calendar value of the record's date string. -/
structure FeedItem where
  title : Option Value
  id : String
  link : String
  description : Option Value
  content : Option Value
  author : List (Option Value)
  date : Nat
  image : Option Value
  category : Option Value
deriving DecidableEq

/-- Stringification a template literal applies to an interpolated value:
lists join with commas, an absent value prints as "undefined". -/
def valueToString : Option Value → String
  | some (.vstr s) => s
  | some (.vlist l) => String.intercalate "," l
  | none => "undefined"

/-- The per-post body of the `articles.forEach` loop of `generateRSSFeed`:
derive the item URL from the base URL, the fixed "/blog/" prefix and the
slug, and map the record's fields onto the feed-item fields. -/
def itemOfPost (post : Obj) : FeedItem :=
  let url := baseUrl ++ "/blog/" ++ valueToString (List.lookup "slug" post)
  { title := List.lookup "title" post
    id := url
    link := url
    description := List.lookup "excerpt" post
    content := List.lookup "content" post
    author := [List.lookup "author" post]
    date := parseDate (recDate post)
    image := List.lookup "coverImage" post
    category := List.lookup "keywords" post }

/-- The feed container built by `new Feed({...})` plus its items. -/
structure FeedDoc where
  title : String
  description : String
  id : String
  link : String
  language : String
  feedLinkRss2 : String
  author : FeedAuthor
  items : List FeedItem
deriving DecidableEq

/-- Translation of `generateRSSFeed` (pages/index.js): construct the feed
container from the fixed site metadata and add one item per post, in input
order. -/
def generateRSSFeed (articles : List Obj) : FeedDoc :=
  { title := "Articles by Bartosz Golebiowski"
    description :=
      "Blog with articles about frontend technology, react, micro-frontends, single-spa"
    id := baseUrl
    link := baseUrl
    language := "en"
    feedLinkRss2 := baseUrl ++ "/rss.xml"
    author := siteAuthor
    items := articles.map itemOfPost }

/-- The serialized RSS 2.0 document `feed.rss2()`: the feed content plus the
generation timestamp the serializer embeds (its lastBuildDate). -/
structure Rss2Doc where
  doc : FeedDoc
  lastBuildDate : Nat
deriving DecidableEq

/-- Serialization of a feed at a given current time. -/
def rss2 (doc : FeedDoc) (now : Nat) : Rss2Doc :=
  { doc := doc, lastBuildDate := now }

/-- The observable effect of `generateRSSFeed`: the output path written and
the document written there, at a given current time. -/
def runGenerateRSSFeed (articles : List Obj) (now : Nat) : String × Rss2Doc :=
  ("public/rss.xml", rss2 (generateRSSFeed articles) now)

/-- Translation of `getStaticProps` (pages/index.js): load all posts, sort
them by date descending, synthesize and write the feed, return the articles. -/
def getStaticProps (fs : FS) (now : Nat) :
    Except LoadErr (List Obj × (String × Rss2Doc)) := do
  let articles ← getAllPosts fs
  let sorted := sortPostsByDateDesc articles
  return (sorted, runGenerateRSSFeed sorted now)

/-! Helper lemmas about object assignment and field projection. -/

theorem objKeys_nil : objKeys [] = [] := rfl

theorem objKeys_cons (p : String × Value) (t : Obj) :
    objKeys (p :: t) = p.1 :: objKeys t := rfl

theorem mem_objKeys_objInsert (o : Obj) (k : String) (v : Value) (k2 : String) :
    k2 ∈ objKeys (objInsert o k v) ↔ k2 ∈ objKeys o ∨ k2 = k := by
  induction o with
  | nil => simp [objInsert, objKeys]
  | cons p t ih =>
      obtain ⟨k0, v0⟩ := p
      by_cases h : k0 = k
      · subst h
        have e : objInsert ((k0, v0) :: t) k0 v = (k0, v) :: t := by
          simp [objInsert]
        rw [e]
        simp only [objKeys_cons, List.mem_cons]
        tauto
      · simp only [objInsert, if_neg h, objKeys_cons, List.mem_cons, ih]
        tauto

theorem lookup_objInsert_self (o : Obj) (k : String) (v : Value) :
    List.lookup k (objInsert o k v) = some v := by
  induction o with
  | nil => simp [objInsert]
  | cons p t ih =>
      obtain ⟨k0, v0⟩ := p
      by_cases h : k0 = k
      · subst h
        simp [objInsert]
      · have h2 : (k == k0) = false := beq_eq_false_iff_ne.mpr (Ne.symm h)
        simp [objInsert, if_neg h, List.lookup_cons, h2, ih]

theorem lookup_objInsert_ne (o : Obj) (k : String) (v : Value) (k2 : String)
    (h : k2 ≠ k) : List.lookup k2 (objInsert o k v) = List.lookup k2 o := by
  induction o with
  | nil => simp [objInsert, List.lookup_cons, beq_eq_false_iff_ne.mpr h]
  | cons p t ih =>
      obtain ⟨k0, v0⟩ := p
      by_cases h0 : k0 = k
      · subst h0
        simp [objInsert, List.lookup_cons, beq_eq_false_iff_ne.mpr h]
      · simp [objInsert, if_neg h0, List.lookup_cons, ih]

theorem lookup_eq_none_iff (o : Obj) (k : String) :
    List.lookup k o = none ↔ k ∉ objKeys o := by
  induction o with
  | nil => simp [objKeys]
  | cons p t ih =>
      obtain ⟨k0, v0⟩ := p
      by_cases h : k = k0
      · subst h
        simp [List.lookup_cons, objKeys_cons]
      · simp [List.lookup_cons, beq_eq_false_iff_ne.mpr h, objKeys_cons, ih, h]

theorem mem_objKeys_of_lookup_eq_some {o : Obj} {k : String} {v : Value}
    (h : List.lookup k o = some v) : k ∈ objKeys o := by
  by_contra hn
  rw [← lookup_eq_none_iff] at hn
  rw [h] at hn
  cases hn

theorem mem_objKeys_projectStep (file : PostFile) (acc : Obj) (f k : String) :
    k ∈ objKeys (projectStep file acc f) ↔
      k ∈ objKeys acc ∨ (k = f ∧ (f ∈ objKeys file.data ∨ f = "content")) := by
  unfold projectStep
  cases hl : List.lookup f file.data with
  | none =>
      have hnm : f ∉ objKeys file.data := (lookup_eq_none_iff _ _).1 hl
      by_cases hc : f = "content"
      · subst hc
        rw [if_pos rfl]
        simp only [mem_objKeys_objInsert]
        tauto
      · rw [if_neg hc]
        constructor
        · exact fun h => Or.inl h
        · rintro (h | ⟨rfl, hC | hC⟩)
          · exact h
          · exact absurd hC hnm
          · exact absurd hC hc
  | some v =>
      have hm : f ∈ objKeys file.data := mem_objKeys_of_lookup_eq_some hl
      by_cases hc : f = "content"
      · subst hc
        rw [if_pos rfl]
        simp only [mem_objKeys_objInsert]
        tauto
      · rw [if_neg hc]
        simp only [mem_objKeys_objInsert]
        tauto

theorem mem_objKeys_foldl_projectStep (file : PostFile) :
    ∀ (fields : List String) (acc : Obj) (k : String),
      k ∈ objKeys (List.foldl (projectStep file) acc fields) ↔
        k ∈ objKeys acc ∨ (k ∈ fields ∧ (k ∈ objKeys file.data ∨ k = "content")) := by
  intro fields
  induction fields with
  | nil => simp
  | cons f fs ih =>
      intro acc k
      rw [List.foldl_cons, ih, mem_objKeys_projectStep]
      constructor
      · rintro ((h | ⟨rfl, hC⟩) | ⟨hin, hC⟩)
        · exact Or.inl h
        · exact Or.inr ⟨List.mem_cons_self _ _, hC⟩
        · exact Or.inr ⟨List.mem_cons_of_mem _ hin, hC⟩
      · rintro (h | ⟨hin, hC⟩)
        · exact Or.inl (Or.inl h)
        · rcases List.mem_cons.mp hin with rfl | hin
          · exact Or.inl (Or.inr ⟨rfl, hC⟩)
          · exact Or.inr ⟨hin, hC⟩

theorem lookup_content_projectStep_ne (file : PostFile) (acc : Obj) (f : String)
    (h : ¬ f = "content") :
    List.lookup "content" (projectStep file acc f) = List.lookup "content" acc := by
  unfold projectStep
  have hne : ("content" : String) ≠ f := fun he => h he.symm
  cases hl : List.lookup f file.data with
  | none => simp [if_neg h]
  | some v => simp [if_neg h, lookup_objInsert_ne _ _ _ _ hne]

theorem lookup_content_projectStep_self (file : PostFile) (acc : Obj) :
    List.lookup "content" (projectStep file acc "content") =
      some (Value.vstr file.content) := by
  unfold projectStep
  cases hl : List.lookup "content" file.data with
  | none => simp [lookup_objInsert_self]
  | some v => simp [lookup_objInsert_self]

theorem lookup_content_foldl_not_mem (file : PostFile) :
    ∀ (fields : List String) (acc : Obj), "content" ∉ fields →
      List.lookup "content" (List.foldl (projectStep file) acc fields) =
        List.lookup "content" acc := by
  intro fields
  induction fields with
  | nil => intro acc _; rfl
  | cons f fs ih =>
      intro acc h
      have hf : ¬ f = "content" := by
        intro he
        exact h (he ▸ List.mem_cons_self _ _)
      rw [List.foldl_cons, ih _ (fun hm => h (List.mem_cons_of_mem _ hm)),
        lookup_content_projectStep_ne file acc f hf]

theorem lookup_content_foldl_mem (file : PostFile) :
    ∀ (fields : List String) (acc : Obj), "content" ∈ fields →
      List.lookup "content" (List.foldl (projectStep file) acc fields) =
        some (Value.vstr file.content) := by
  intro fields
  induction fields with
  | nil => intro acc h; cases h
  | cons f fs ih =>
      intro acc h
      by_cases hm : "content" ∈ fs
      · rw [List.foldl_cons]
        exact ih _ hm
      · have hf : f = "content" := by
          rcases List.mem_cons.mp h with h1 | h1
          · exact h1.symm
          · exact absurd h1 hm
        subst hf
        rw [List.foldl_cons, lookup_content_foldl_not_mem file fs _ hm,
          lookup_content_projectStep_self]

/-! Lemmas about slug normalization. -/

theorem toList_append_md (s : String) :
    (s ++ ".md").toList = s.toList ++ ['.', 'm', 'd'] := by
  show (s ++ ".md").data = s.data ++ ['.', 'm', 'd']
  rw [String.data_append]

theorem endsWithMd_append_md (s : String) : endsWithMd (s ++ ".md") = true := by
  unfold endsWithMd
  rw [toList_append_md, List.reverse_append]
  rfl

theorem realSlug_append_md (s : String) : realSlug (s ++ ".md") = s := by
  unfold realSlug
  rw [endsWithMd_append_md, if_pos rfl, toList_append_md, List.reverse_append]
  have h : (['.', 'm', 'd'].reverse ++ s.toList.reverse).drop 3 = s.toList.reverse :=
    rfl
  rw [h, List.reverse_reverse, String.asString_toList]

theorem realSlug_of_not_md (s : String) (h : endsWithMd s = false) :
    realSlug s = s := by
  unfold realSlug
  rw [h]
  simp

/-! Sample store used to evaluate the theorems on concrete inputs. -/

/-- A concrete parsed post file: two header fields and a body. -/
def samplePostFile : PostFile :=
  { data := [("title", Value.vstr "X"), ("date", Value.vstr "2020-01-01")]
    content := "body text" }

/-- A concrete posts directory holding the single file "hello.md". -/
def sampleFS : FS :=
  { entries := ["hello.md"]
    read := fun p => if p = "hello.md" then some (.ok samplePostFile) else none }

/-- C1: for every post file and every requested field list, `getPostBySlug`
returns a record whose key set is exactly the intersection of the requested
fields with the fields present in the front-matter header, plus "content"
(bound to the body text) whenever "content" is requested; no key outside the
requested list appears, and a requested field absent from the header is
omitted entirely. -/
theorem getPostBySlug_field_projection (fs : FS) (slug : String)
    (fields : List String) (file : PostFile)
    (h : fs.read (realSlug slug ++ ".md") = some (.ok file)) :
    getPostBySlug fs slug fields = .ok (projectFields fields file) ∧
    (∀ k, k ∈ objKeys (projectFields fields file) ↔
      (k ∈ fields ∧ k ∈ objKeys file.data) ∨
        (k = "content" ∧ "content" ∈ fields)) ∧
    ("content" ∈ fields →
      List.lookup "content" (projectFields fields file) =
        some (Value.vstr file.content)) := by
  refine ⟨?_, ?_, ?_⟩
  · unfold getPostBySlug
    rw [h]
  · intro k
    unfold projectFields
    rw [mem_objKeys_foldl_projectStep]
    constructor
    · rintro (h0 | ⟨hin, hd | hc⟩)
      · cases h0
      · exact Or.inl ⟨hin, hd⟩
      · subst hc
        exact Or.inr ⟨rfl, hin⟩
    · rintro (⟨hin, hd⟩ | ⟨rfl, hin⟩)
      · exact Or.inr ⟨hin, Or.inl hd⟩
      · exact Or.inr ⟨hin, Or.inr rfl⟩
  · intro hc
    exact lookup_content_foldl_mem file fields [] hc

/-- Witness for C1: the projection theorem evaluated at the sample store,
slug "hello" and field list ["title", "excerpt"]. -/
theorem getPostBySlug_field_projection_witness :
    getPostBySlug sampleFS "hello" ["title", "excerpt"] =
        .ok (projectFields ["title", "excerpt"] samplePostFile) ∧
    ("title" ∈ objKeys (projectFields ["title", "excerpt"] samplePostFile) ↔
      ("title" ∈ ["title", "excerpt"] ∧ "title" ∈ objKeys samplePostFile.data) ∨
        ("title" = "content" ∧ "content" ∈ ["title", "excerpt"])) :=
  ⟨(getPostBySlug_field_projection sampleFS "hello" ["title", "excerpt"]
      samplePostFile (by rfl)).1,
   (getPostBySlug_field_projection sampleFS "hello" ["title", "excerpt"]
      samplePostFile (by rfl)).2.1 "title"⟩

/-- C9: `getPostBySlug` strips one trailing ".md" from its identifier before
resolving the file, so for a slug that does not end in ".md", loading the
slug and loading the slug with ".md" appended read the same file and return
equal results. -/
theorem getPostBySlug_md_suffix_equiv (fs : FS) (s : String)
    (fields : List String) (h : endsWithMd s = false) :
    getPostBySlug fs (s ++ ".md") fields = getPostBySlug fs s fields := by
  unfold getPostBySlug
  rw [realSlug_append_md, realSlug_of_not_md s h]

/-- Witness for C9: loading "hello.md" and "hello" from the sample store
agree. -/
theorem getPostBySlug_md_suffix_equiv_witness :
    getPostBySlug sampleFS ("hello" ++ ".md") ["title"] =
      getPostBySlug sampleFS "hello" ["title"] :=
  getPostBySlug_md_suffix_equiv sampleFS "hello" ["title"] (by decide)

/-! Lemmas about the fallible traversal `mapLoad`. -/

theorem mapLoad_error_of_mem {α β ε : Type} {f : α → Except ε β} :
    ∀ {l : List α} {a : α}, a ∈ l → (∃ e, f a = .error e) →
      ∃ e2, mapLoad f l = .error e2 := by
  intro l
  induction l with
  | nil => intro a h; cases h
  | cons x t ih =>
      intro a h he
      rcases List.mem_cons.mp h with rfl | hm
      · obtain ⟨e, hf⟩ := he
        exact ⟨e, by simp [mapLoad, hf]⟩
      · cases hf : f x with
        | error e => exact ⟨e, by simp [mapLoad, hf]⟩
        | ok b =>
            obtain ⟨e2, h2⟩ := ih hm he
            exact ⟨e2, by simp [mapLoad, hf, h2]⟩

theorem mapLoad_ok_length_and_get {α β ε : Type} {f : α → Except ε β} :
    ∀ {l : List α} {ys : List β}, mapLoad f l = .ok ys →
      ys.length = l.length ∧
        ∀ (i : Nat) (a : α), l[i]? = some a →
          ∃ b, ys[i]? = some b ∧ f a = .ok b := by
  intro l
  induction l with
  | nil =>
      intro ys h
      cases hy : ys with
      | nil => simp
      | cons y t =>
          subst hy
          simp [mapLoad] at h
  | cons x t ih =>
      intro ys h
      cases hf : f x with
      | error e => simp [mapLoad, hf] at h
      | ok b =>
          cases hr : mapLoad f t with
          | error e => simp [mapLoad, hf, hr] at h
          | ok bs =>
              have hys : ys = b :: bs := by
                simp [mapLoad, hf, hr] at h
                exact h.symm
              subst hys
              obtain ⟨hlen, hget⟩ := ih hr
              refine ⟨by simp [hlen], ?_⟩
              intro i a ha
              cases i with
              | zero =>
                  simp only [List.getElem?_cons_zero, Option.some_inj] at ha
                  subst ha
                  exact ⟨b, by simp, hf⟩
              | succ j =>
                  simp only [List.getElem?_cons_succ] at ha ⊢
                  exact hget j a ha

theorem mapLoad_error_eq {α β ε : Type} {f : α → Except ε β} :
    ∀ {l : List α} {x : α} {e : ε}, x ∈ l → f x = .error e →
      (∀ a ∈ l, a ≠ x → ∃ b, f a = .ok b) → mapLoad f l = .error e := by
  intro l
  induction l with
  | nil => intro x e h; cases h
  | cons y t ih =>
      intro x e hmem hfx hok
      by_cases hyx : y = x
      · subst hyx
        simp [mapLoad, hfx]
      · obtain ⟨b, hb⟩ := hok y (List.mem_cons_self _ _) hyx
        have hm : x ∈ t := by
          rcases List.mem_cons.mp hmem with h1 | h1
          · exact absurd h1.symm hyx
          · exact h1
        have ht : mapLoad f t = .error e :=
          ih hm hfx (fun a ha hax => hok a (List.mem_cons_of_mem _ ha) hax)
        simp [mapLoad, hb, ht]

/-- A posts directory with one well-formed file and one file whose header
fails to parse. -/
def badFS : FS :=
  { entries := ["good.md", "bad.md"]
    read := fun p =>
      if p = "good.md" then some (.ok samplePostFile)
      else if p = "bad.md" then some (.error ⟨"bad header"⟩)
      else none }

/-- A posts directory containing an entry whose name does not end in ".md". -/
def mixedFS : FS :=
  { entries := ["hello.md", "notes.txt"]
    read := fun p => if p = "hello.md" then some (.ok samplePostFile) else none }

/-- C2: the page assembler's date-descending sort is idempotent: sorting an
already sorted list changes nothing, also when posts share a date. -/
theorem sortPostsByDateDesc_idempotent (l : List Obj) :
    sortPostsByDateDesc (sortPostsByDateDesc l) = sortPostsByDateDesc l :=
  List.Sorted.insertionSort_eq (List.sorted_insertionSort postGe l)

/-- C4: the page assembler's sort compares posts as calendar dates,
descending: three posts dated 2021-01-01, 2023-06-18 and 2022-06-20 sort to
the order 2023-06-18, 2022-06-20, 2021-01-01. -/
theorem sortPostsByDateDesc_example (p1 p2 p3 : Obj)
    (h1 : recDate p1 = "2021-01-01") (h2 : recDate p2 = "2023-06-18")
    (h3 : recDate p3 = "2022-06-20") :
    sortPostsByDateDesc [p1, p2, p3] = [p2, p3, p1] := by
  have d1 : parseDate (recDate p1) = 20210101 := by rw [h1]; decide
  have d2 : parseDate (recDate p2) = 20230618 := by rw [h2]; decide
  have d3 : parseDate (recDate p3) = 20220620 := by rw [h3]; decide
  simp [sortPostsByDateDesc, List.insertionSort, List.orderedInsert, postGe,
    d1, d2, d3]

/-- Witness for C4: three concrete one-field posts with those dates sort to
the stated order. -/
theorem sortPostsByDateDesc_example_witness :
    sortPostsByDateDesc
        [[("date", Value.vstr "2021-01-01")],
         [("date", Value.vstr "2023-06-18")],
         [("date", Value.vstr "2022-06-20")]] =
      [[("date", Value.vstr "2023-06-18")],
       [("date", Value.vstr "2022-06-20")],
       [("date", Value.vstr "2021-01-01")]] :=
  sortPostsByDateDesc_example
    [("date", Value.vstr "2021-01-01")]
    [("date", Value.vstr "2023-06-18")]
    [("date", Value.vstr "2022-06-20")]
    (by rfl) (by rfl) (by rfl)

/-- C5: `getPostBySlug` fails with a file-not-found error when the resolved
file is absent, propagates a parse error when the header is malformed, and a
single failing post file makes the whole `getAllPosts` enumeration fail. -/
theorem loadErrors_propagate (fs : FS) (slug : String) (fields : List String) :
    (fs.read (realSlug slug ++ ".md") = none →
      getPostBySlug fs slug fields =
        .error (.fileNotFound (realSlug slug ++ ".md"))) ∧
    (∀ e, fs.read (realSlug slug ++ ".md") = some (.error e) →
      getPostBySlug fs slug fields = .error (.parseError e)) ∧
    (∀ er, slug ∈ fs.entries → getPostBySlug fs slug fields = .error er →
      ∃ er2, getAllPosts fs fields = .error er2) := by
  refine ⟨?_, ?_, ?_⟩
  · intro h
    unfold getPostBySlug
    rw [h]
  · intro e h
    unfold getPostBySlug
    rw [h]
  · intro er hmem herr
    unfold getAllPosts getPostSlugs
    exact mapLoad_error_of_mem hmem ⟨er, herr⟩

/-- Witness for C5: a missing slug yields file-not-found, the malformed file
yields a parse error, and its presence fails the whole enumeration. -/
theorem loadErrors_propagate_witness :
    getPostBySlug sampleFS "missing" ["title"] =
        .error (.fileNotFound (realSlug "missing" ++ ".md")) ∧
    getPostBySlug badFS "bad" ["title"] = .error (.parseError ⟨"bad header"⟩) ∧
    (∃ er2, getAllPosts badFS ["title"] = .error er2) :=
  ⟨(loadErrors_propagate sampleFS "missing" ["title"]).1 (by rfl),
   (loadErrors_propagate badFS "bad" ["title"]).2.1 ⟨"bad header"⟩ (by rfl),
   (loadErrors_propagate badFS "bad.md" ["title"]).2.2
     (.parseError ⟨"bad header"⟩) (by simp [badFS]) (by rfl)⟩

/-- C7: on success `getAllPosts` returns one record per enumerated directory
entry, each exactly the loader's result for that entry, in enumeration
order, with no sorting or filtering. -/
theorem getAllPosts_enumeration (fs : FS) (fields : List String)
    (ps : List Obj) (h : getAllPosts fs fields = .ok ps) :
    ps.length = fs.entries.length ∧
    ∀ (i : Nat) (slug : String), fs.entries[i]? = some slug →
      ∃ r, ps[i]? = some r ∧ getPostBySlug fs slug fields = .ok r := by
  unfold getAllPosts getPostSlugs at h
  exact mapLoad_ok_length_and_get h

/-- Witness for C7: the sample store's single post enumerates to the single
projected record. -/
theorem getAllPosts_enumeration_witness :
    ([[("title", Value.vstr "X")]] : List Obj).length =
        sampleFS.entries.length ∧
    ∃ r, ([[("title", Value.vstr "X")]] : List Obj)[0]? = some r ∧
      getPostBySlug sampleFS "hello.md" ["title"] = .ok r :=
  ⟨(getAllPosts_enumeration sampleFS ["title"] [[("title", Value.vstr "X")]]
      (by rfl)).1,
   (getAllPosts_enumeration sampleFS ["title"] [[("title", Value.vstr "X")]]
      (by rfl)).2 0 "hello.md" (by rfl)⟩

/-- C10: `getAllPosts` passes every directory entry to the loader without
filtering by extension, so an entry not ending in ".md" with no backing
entry-plus-".md" file makes the loader hit a nonexistent path and, when the
other entries load, the whole enumeration fails with file-not-found. -/
theorem getAllPosts_fails_on_non_md_entry (fs : FS) (fields : List String)
    (e : String) (hmem : e ∈ fs.entries) (hnmd : endsWithMd e = false)
    (hnf : fs.read (e ++ ".md") = none) :
    getPostBySlug fs e fields = .error (.fileNotFound (e ++ ".md")) ∧
    (∃ er, getAllPosts fs fields = .error er) ∧
    ((∀ s ∈ fs.entries, s ≠ e → ∃ r, getPostBySlug fs s fields = .ok r) →
      getAllPosts fs fields = .error (.fileNotFound (e ++ ".md"))) := by
  have h1 : getPostBySlug fs e fields = .error (.fileNotFound (e ++ ".md")) := by
    unfold getPostBySlug
    rw [realSlug_of_not_md e hnmd, hnf]
  refine ⟨h1, ?_, ?_⟩
  · unfold getAllPosts getPostSlugs
    exact mapLoad_error_of_mem hmem ⟨_, h1⟩
  · intro hok
    unfold getAllPosts getPostSlugs
    exact mapLoad_error_eq hmem h1 hok

/-- Witness for C10: the store with the stray "notes.txt" entry fails as a
whole with file-not-found on "notes.txt.md". -/
theorem getAllPosts_fails_on_non_md_entry_witness :
    getPostBySlug mixedFS "notes.txt" ["title"] =
        .error (.fileNotFound ("notes.txt" ++ ".md")) ∧
    getAllPosts mixedFS ["title"] =
        .error (.fileNotFound ("notes.txt" ++ ".md")) :=
  ⟨(getAllPosts_fails_on_non_md_entry mixedFS ["title"] "notes.txt"
      (by simp [mixedFS]) (by rfl) (by rfl)).1,
   (getAllPosts_fails_on_non_md_entry mixedFS ["title"] "notes.txt"
      (by simp [mixedFS]) (by rfl) (by rfl)).2.2
     (by
       intro s hs hne
       simp only [mixedFS, List.mem_cons, List.not_mem_nil, or_false] at hs
       rcases hs with rfl | rfl
       · exact ⟨projectFields ["title"] samplePostFile, by rfl⟩
       · exact absurd rfl hne)⟩

/-- C3: feed synthesis derives each item URL as base URL plus "/blog/" plus
the post's slug, and maps post fields one-to-one onto the feed item: title
to title, excerpt to description, content to content, coverImage to image,
keywords to category, and date to a parsed publication timestamp. -/
theorem generateRSSFeed_item_mapping (articles : List Obj) (i : Nat)
    (post : Obj) (h : articles[i]? = some post) :
    ∃ item, (generateRSSFeed articles).items[i]? = some item ∧
      item.link = baseUrl ++ "/blog/" ++ valueToString (List.lookup "slug" post) ∧
      item.id = item.link ∧
      item.title = List.lookup "title" post ∧
      item.description = List.lookup "excerpt" post ∧
      item.content = List.lookup "content" post ∧
      item.image = List.lookup "coverImage" post ∧
      item.category = List.lookup "keywords" post ∧
      item.date = parseDate (recDate post) := by
  refine ⟨itemOfPost post, ?_, rfl, rfl, rfl, rfl, rfl, rfl, rfl, rfl⟩
  unfold generateRSSFeed
  simp [List.getElem?_map, h]

/-- Witness for C3: the field mapping evaluated on one concrete post. -/
theorem generateRSSFeed_item_mapping_witness :
    ∃ item,
      (generateRSSFeed
          [[("slug", Value.vstr "p"), ("title", Value.vstr "T"),
            ("date", Value.vstr "2020-01-02")]]).items[0]? = some item ∧
      item.link = baseUrl ++ "/blog/" ++
        valueToString (List.lookup "slug"
          [("slug", Value.vstr "p"), ("title", Value.vstr "T"),
           ("date", Value.vstr "2020-01-02")]) ∧
      item.id = item.link ∧
      item.title = List.lookup "title"
        [("slug", Value.vstr "p"), ("title", Value.vstr "T"),
         ("date", Value.vstr "2020-01-02")] ∧
      item.description = List.lookup "excerpt"
        [("slug", Value.vstr "p"), ("title", Value.vstr "T"),
         ("date", Value.vstr "2020-01-02")] ∧
      item.content = List.lookup "content"
        [("slug", Value.vstr "p"), ("title", Value.vstr "T"),
         ("date", Value.vstr "2020-01-02")] ∧
      item.image = List.lookup "coverImage"
        [("slug", Value.vstr "p"), ("title", Value.vstr "T"),
         ("date", Value.vstr "2020-01-02")] ∧
      item.category = List.lookup "keywords"
        [("slug", Value.vstr "p"), ("title", Value.vstr "T"),
         ("date", Value.vstr "2020-01-02")] ∧
      item.date = parseDate (recDate
        [("slug", Value.vstr "p"), ("title", Value.vstr "T"),
         ("date", Value.vstr "2020-01-02")]) :=
  generateRSSFeed_item_mapping
    [[("slug", Value.vstr "p"), ("title", Value.vstr "T"),
      ("date", Value.vstr "2020-01-02")]]
    0
    [("slug", Value.vstr "p"), ("title", Value.vstr "T"),
     ("date", Value.vstr "2020-01-02")]
    (by rfl)

/-- C6: feed synthesis over an empty post list does not fail: it writes to
the fixed output path a well-formed feed container holding the fixed site
metadata and zero items. -/
theorem generateRSSFeed_empty (now : Nat) :
    runGenerateRSSFeed [] now =
      ("public/rss.xml",
        { doc :=
            { title := "Articles by Bartosz Golebiowski"
              description :=
                "Blog with articles about frontend technology, react, micro-frontends, single-spa"
              id := baseUrl
              link := baseUrl
              language := "en"
              feedLinkRss2 := baseUrl ++ "/rss.xml"
              author := siteAuthor
              items := [] }
          lastBuildDate := now }) := rfl

/-- C8: feed synthesis is deterministic in its inputs: two runs on the same
post list write to the same path documents whose content agrees entirely,
apart from the embedded generation timestamp. -/
theorem generateRSSFeed_deterministic (articles : List Obj) (n1 n2 : Nat) :
    (runGenerateRSSFeed articles n1).1 = (runGenerateRSSFeed articles n2).1 ∧
    (runGenerateRSSFeed articles n1).2.doc =
      (runGenerateRSSFeed articles n2).2.doc :=
  ⟨rfl, rfl⟩

end Blog
